import Mathlib

/-!
Verification of the qedit rendering and menu subsystems.

This file shallowly embeds `src/render.rs` (Cell / Grid / RenderBuffer and the
ANSI diff renderer) and `src/menu.rs` (Menu / MenuBar, shortcut parsing and the
modal `take_over` navigation loop) as executable Lean definitions, and proves
the specified properties about them.

Conventions of the embedding:
- Rust `usize` becomes `Nat` (Rust's `saturating_sub` matches Nat subtraction).
- A Rust function that can `panic!` / `unwrap` / `expect` is embedded as a
  function into `Option`, with `none` standing for the panic.
- The `Fg` / `Bg` newtype wrappers around `Color` only exist in the source to
  select a Display instance; the embedding stores the `Color` directly.
- Rust `&str.len()` is UTF-8 byte length and is embedded as
  `String.utf8ByteSize`.
-/

namespace Qedit

/-- Color enumeration from `render.rs`: the closed 4-color palette. -/
inductive Color where
  | White
  | Black
  | LightWhite
  | Blue
deriving DecidableEq

/-- DEFAULT_FG static from `render.rs`. -/
def DEFAULT_FG : Color := Color.White

/-- DEFAULT_BG static from `render.rs`. -/
def DEFAULT_BG : Color := Color.Black

/-- Cell from `render.rs`: a glyph plus foreground and background color. -/
structure Cell where
  ch : Char
  fg : Color
  bg : Color
deriving DecidableEq

/-- Default Cell: a space with DEFAULT_FG on DEFAULT_BG. -/
def Cell.default : Cell := ⟨' ', DEFAULT_FG, DEFAULT_BG⟩

/-- Grid from `render.rs`: a size plus a flat row-major vector of cells.
The source stores `size : Extent2<usize>`; the embedding uses the two fields
`w` and `h` directly. -/
structure Grid where
  w : Nat
  h : Nat
  cells : List Cell
deriving DecidableEq

/-- Grid::new: `size.w * size.h` default cells. -/
def Grid.new (w h : Nat) : Grid :=
  ⟨w, h, List.replicate (w * h) Cell.default⟩

/-- Grid::idx_of: row-major index of an in-bounds position, `none` otherwise.
A position is `(x, y)` = `(column, row)`, mirroring `Vec2<usize>`. -/
def Grid.idx_of (g : Grid) (pos : Nat × Nat) : Option Nat :=
  if pos.1 < g.w ∧ pos.2 < g.h then some (g.w * pos.2 + pos.1) else none

/-- Grid::get: the cell at `pos`, or the default cell when `pos` is out of
range (or the backing vector is too short). Never faults. -/
def Grid.get (g : Grid) (pos : Nat × Nat) : Cell :=
  match g.idx_of pos with
  | some idx => (g.cells[idx]?).getD Cell.default
  | none => Cell.default

/-- Grid::get_mut, embedded as the cell the returned reference points at;
`none` models the `panic!` on an out-of-range position (and the `unwrap`
panic when the backing vector is shorter than `w * h`). -/
def Grid.get_mut? (g : Grid) (pos : Nat × Nat) : Option Cell :=
  match g.idx_of pos with
  | some idx => g.cells[idx]?
  | none => none

/-- Grid::set: functional update; a silent no-op when `pos` is out of range
(`List.set` is also a no-op past the end, exactly like
`cells.get_mut(idx).map(|c| *c = cell)`). -/
def Grid.set (g : Grid) (pos : Nat × Nat) (cell : Cell) : Grid :=
  match g.idx_of pos with
  | some idx => { g with cells := g.cells.set idx cell }
  | none => g

/-- In-bounds predicate for a grid position, as tested by `idx_of`. -/
def Grid.validPos (g : Grid) (pos : Nat × Nat) : Prop :=
  pos.1 < g.w ∧ pos.2 < g.h

instance (g : Grid) (pos : Nat × Nat) : Decidable (g.validPos pos) := by
  unfold Grid.validPos; infer_instance

theorem Grid.idx_of_valid (g : Grid) (pos : Nat × Nat) (h : g.validPos pos) :
    g.idx_of pos = some (g.w * pos.2 + pos.1) := by
  have h' : pos.1 < g.w ∧ pos.2 < g.h := h
  simp [Grid.idx_of, h'.1, h'.2]

theorem Grid.idx_of_invalid (g : Grid) (pos : Nat × Nat) (h : ¬ g.validPos pos) :
    g.idx_of pos = none := by
  simp only [Grid.idx_of, ite_eq_right_iff]
  intro hv
  exact absurd hv h

theorem Grid.idx_lt (g : Grid) (pos : Nat × Nat) (h : g.validPos pos) :
    g.w * pos.2 + pos.1 < g.w * g.h := by
  obtain ⟨hx, hy⟩ := h
  calc g.w * pos.2 + pos.1 < g.w * pos.2 + g.w := by omega
    _ = g.w * (pos.2 + 1) := by ring
    _ ≤ g.w * g.h := Nat.mul_le_mul_left _ (by omega)

/-- Row-major indices of distinct in-range positions are distinct. -/
theorem Grid.idx_inj (g : Grid) (pos q : Nat × Nat)
    (hp : g.validPos pos) (hq : g.validPos q)
    (h : g.w * pos.2 + pos.1 = g.w * q.2 + q.1) : pos = q := by
  have hw : 0 < g.w := Nat.lt_of_le_of_lt (Nat.zero_le _) hp.1
  have e2 : pos.2 = q.2 := by
    have d1 : (g.w * pos.2 + pos.1) / g.w = pos.2 := by
      rw [Nat.mul_add_div hw, Nat.div_eq_of_lt hp.1, Nat.add_zero]
    have d2 : (g.w * q.2 + q.1) / g.w = q.2 := by
      rw [Nat.mul_add_div hw, Nat.div_eq_of_lt hq.1, Nat.add_zero]
    rw [← d1, ← d2, h]
  have e1 : pos.1 = q.1 := by
    have m1 : (g.w * pos.2 + pos.1) % g.w = pos.1 := by
      rw [Nat.mul_add_mod, Nat.mod_eq_of_lt hp.1]
    have m2 : (g.w * q.2 + q.1) % g.w = q.1 := by
      rw [Nat.mul_add_mod, Nat.mod_eq_of_lt hq.1]
    rw [← m1, ← m2, h]
  exact Prod.ext e1 e2

theorem Grid.get_invalid (g : Grid) (pos : Nat × Nat) (h : ¬ g.validPos pos) :
    g.get pos = Cell.default := by
  simp [Grid.get, Grid.idx_of_invalid g pos h]

theorem Grid.get_mut?_invalid (g : Grid) (pos : Nat × Nat) (h : ¬ g.validPos pos) :
    g.get_mut? pos = none := by
  simp [Grid.get_mut?, Grid.idx_of_invalid g pos h]

theorem Grid.set_invalid (g : Grid) (pos : Nat × Nat) (c : Cell) (h : ¬ g.validPos pos) :
    g.set pos c = g := by
  simp [Grid.set, Grid.idx_of_invalid g pos h]

theorem Grid.get_valid (g : Grid) (pos : Nat × Nat) (h : g.validPos pos) :
    g.get pos = (g.cells[g.w * pos.2 + pos.1]?).getD Cell.default := by
  simp [Grid.get, Grid.idx_of_valid g pos h]

/-- With the length invariant, in-range `get_mut?` succeeds and agrees with
`get`. -/
theorem Grid.get_mut?_valid (g : Grid) (pos : Nat × Nat)
    (hlen : g.cells.length = g.w * g.h) (h : g.validPos pos) :
    g.get_mut? pos = some (g.get pos) := by
  have hidx : g.w * pos.2 + pos.1 < g.cells.length := by
    rw [hlen]; exact g.idx_lt pos h
  have hsome := List.getElem?_eq_getElem hidx
  rw [Grid.get_valid g pos h]
  unfold Grid.get_mut?
  rw [Grid.idx_of_valid g pos h]
  show g.cells[g.w * pos.2 + pos.1]? = _
  rw [hsome]
  rfl

theorem Grid.get_of_get_mut? (g : Grid) (pos : Nat × Nat) (c : Cell)
    (h : g.get_mut? pos = some c) : g.get pos = c := by
  unfold Grid.get_mut? at h
  unfold Grid.get
  cases hidx : g.idx_of pos with
  | none => rw [hidx] at h; exact absurd h (by simp)
  | some idx =>
    rw [hidx] at h
    have h' : g.cells[idx]? = some c := h
    simp [h']

/-- A successful `get_mut?` means the position is in range. -/
theorem Grid.validPos_of_get_mut? (g : Grid) (pos : Nat × Nat) (c : Cell)
    (h : g.get_mut? pos = some c) : g.validPos pos := by
  by_contra hv
  rw [Grid.get_mut?_invalid g pos hv] at h
  exact absurd h (by simp)

theorem Grid.set_w (g : Grid) (pos : Nat × Nat) (c : Cell) : (g.set pos c).w = g.w := by
  unfold Grid.set; cases g.idx_of pos <;> rfl

theorem Grid.set_h (g : Grid) (pos : Nat × Nat) (c : Cell) : (g.set pos c).h = g.h := by
  unfold Grid.set; cases g.idx_of pos <;> rfl

theorem Grid.set_length (g : Grid) (pos : Nat × Nat) (c : Cell) :
    (g.set pos c).cells.length = g.cells.length := by
  unfold Grid.set; cases g.idx_of pos <;> simp

/-- Setting a cell whose reference `get_mut?` yields makes `get` return it. -/
theorem Grid.get_set_self (g : Grid) (pos : Nat × Nat) (c c' : Cell)
    (h : g.get_mut? pos = some c) : (g.set pos c').get pos = c' := by
  have hv : g.validPos pos := g.validPos_of_get_mut? pos c h
  have hidx : g.w * pos.2 + pos.1 < g.cells.length := by
    unfold Grid.get_mut? at h
    rw [Grid.idx_of_valid g pos hv] at h
    have h' : g.cells[g.w * pos.2 + pos.1]? = some c := h
    exact (List.getElem?_eq_some.mp h').1
  unfold Grid.set
  rw [Grid.idx_of_valid g pos hv]
  show Grid.get ⟨g.w, g.h, g.cells.set (g.w * pos.2 + pos.1) c'⟩ pos = c'
  have hv' : Grid.validPos ⟨g.w, g.h, g.cells.set (g.w * pos.2 + pos.1) c'⟩ pos := hv
  rw [Grid.get_valid _ pos hv']
  show ((g.cells.set (g.w * pos.2 + pos.1) c')[g.w * pos.2 + pos.1]?).getD Cell.default = c'
  rw [List.getElem?_set_self hidx]
  rfl

/-- Setting one position leaves `get` at any other position unchanged. -/
theorem Grid.get_set_other (g : Grid) (pos q : Nat × Nat) (c : Cell)
    (hne : q ≠ pos) : (g.set pos c).get q = g.get q := by
  by_cases hv : g.validPos pos
  · unfold Grid.set
    rw [Grid.idx_of_valid g pos hv]
    show Grid.get ⟨g.w, g.h, g.cells.set (g.w * pos.2 + pos.1) c⟩ q = g.get q
    by_cases hq : g.validPos q
    · have hq' : Grid.validPos ⟨g.w, g.h, g.cells.set (g.w * pos.2 + pos.1) c⟩ q := hq
      rw [Grid.get_valid _ q hq', Grid.get_valid g q hq]
      show ((g.cells.set (g.w * pos.2 + pos.1) c)[g.w * q.2 + q.1]?).getD Cell.default = _
      have hne' : g.w * pos.2 + pos.1 ≠ g.w * q.2 + q.1 := by
        intro hcon
        exact hne (g.idx_inj q pos hq hv hcon.symm)
      rw [List.getElem?_set_ne hne']
    · have hq' : ¬ Grid.validPos ⟨g.w, g.h, g.cells.set (g.w * pos.2 + pos.1) c⟩ q := hq
      rw [Grid.get_invalid _ q hq', Grid.get_invalid g q hq]
  · rw [Grid.set_invalid g pos c hv]

/-- C9: Grid bounds behavior. For every out-of-range position, `get` returns
the default cell (never faults), `set` is a silent no-op, and `get_mut` faults;
for every in-range position all three access the row-major cell at that
position (`get` reads it, `get_mut` points at it, `set` replaces it). -/
theorem grid_access_spec (g : Grid) (pos : Nat × Nat) (c : Cell)
    (hlen : g.cells.length = g.w * g.h) :
    (¬ g.validPos pos →
      g.get pos = Cell.default ∧ g.get_mut? pos = none ∧ g.set pos c = g) ∧
    (g.validPos pos →
      g.cells[g.w * pos.2 + pos.1]? = some (g.get pos) ∧
      g.get_mut? pos = some (g.get pos) ∧
      (g.set pos c).get pos = c) := by
  constructor
  · intro h
    exact ⟨g.get_invalid pos h, g.get_mut?_invalid pos h, g.set_invalid pos c h⟩
  · intro h
    have hm := g.get_mut?_valid pos hlen h
    refine ⟨?_, hm, g.get_set_self pos _ c hm⟩
    have hidx : g.w * pos.2 + pos.1 < g.cells.length := by
      rw [hlen]; exact g.idx_lt pos h
    rw [Grid.get_valid g pos h, List.getElem?_eq_getElem hidx]
    rfl

/-- Witness for `grid_access_spec` on a concrete 2×2 grid, one in-range and
one out-of-range position. -/
theorem grid_access_spec_witness :
    ((¬ (Grid.new 2 2).validPos (5, 0) →
      (Grid.new 2 2).get (5, 0) = Cell.default ∧
      (Grid.new 2 2).get_mut? (5, 0) = none ∧
      (Grid.new 2 2).set (5, 0) Cell.default = Grid.new 2 2) ∧
    (((Grid.new 2 2).validPos (5, 0)) →
      (Grid.new 2 2).cells[(Grid.new 2 2).w * 0 + 5]? = some ((Grid.new 2 2).get (5, 0)) ∧
      (Grid.new 2 2).get_mut? (5, 0) = some ((Grid.new 2 2).get (5, 0)) ∧
      ((Grid.new 2 2).set (5, 0) Cell.default).get (5, 0) = Cell.default)) ∧
    ((¬ (Grid.new 2 2).validPos (0, 1) →
      (Grid.new 2 2).get (0, 1) = Cell.default ∧
      (Grid.new 2 2).get_mut? (0, 1) = none ∧
      (Grid.new 2 2).set (0, 1) Cell.default = Grid.new 2 2) ∧
    (((Grid.new 2 2).validPos (0, 1)) →
      (Grid.new 2 2).cells[(Grid.new 2 2).w * 1 + 0]? = some ((Grid.new 2 2).get (0, 1)) ∧
      (Grid.new 2 2).get_mut? (0, 1) = some ((Grid.new 2 2).get (0, 1)) ∧
      ((Grid.new 2 2).set (0, 1) Cell.default).get (0, 1) = Cell.default)) :=
  ⟨grid_access_spec (Grid.new 2 2) (5, 0) Cell.default (by decide),
   grid_access_spec (Grid.new 2 2) (0, 1) Cell.default (by decide)⟩

/-! RenderBuffer and the ANSI diff renderer from `render.rs`. -/

/-- RenderBuffer from `render.rs`: a size, the front grid (`grids.0`, what has
already been drawn), the back grid (`grids.1`, what is to be drawn next), and
the cached current attributes. -/
structure RenderBuffer where
  w : Nat
  h : Nat
  front : Grid
  back : Grid
  fg : Color
  bg : Color
deriving DecidableEq

/-- RenderBuffer::new: both grids are clones of one freshly allocated grid. -/
def RenderBuffer.new (w h : Nat) : RenderBuffer :=
  ⟨w, h, Grid.new w h, Grid.new w h, DEFAULT_FG, DEFAULT_BG⟩

/-- RenderBuffer::set_fg. -/
def RenderBuffer.set_fg (b : RenderBuffer) (fg : Color) : RenderBuffer :=
  { b with fg := fg }

/-- RenderBuffer::set_bg. -/
def RenderBuffer.set_bg (b : RenderBuffer) (bg : Color) : RenderBuffer :=
  { b with bg := bg }

/-- RenderBuffer::set_cell: writes a cell built from the glyph and the current
attributes into the back grid (out-of-range silently ignored by `Grid.set`). -/
def RenderBuffer.set_cell (b : RenderBuffer) (pos : Nat × Nat) (ch : Char) :
    RenderBuffer :=
  { b with back := b.back.set pos ⟨ch, b.fg, b.bg⟩ }

/-- Draw primitives from `render.rs`. -/
inductive Draw where
  | Text (s : String)
  | Rect (w h : Nat)

/-- RenderBuffer::draw: stamps a primitive into the back grid at an origin. -/
def RenderBuffer.draw (b : RenderBuffer) (origin : Nat × Nat) (d : Draw) :
    RenderBuffer :=
  match d with
  | Draw.Text s =>
    (s.data.enum).foldl (fun acc ic => acc.set_cell (origin.1 + ic.1, origin.2) ic.2) b
  | Draw.Rect w h =>
    (List.range w).foldl (fun acc x =>
      (List.range h).foldl (fun acc2 y =>
        acc2.set_cell (origin.1 + x, origin.2 + y) ' ') acc) b

/-- Output alphabet of `render_ansi`: one constructor per kind of emitted ANSI
escape (or raw glyph). `goto` carries the 1-indexed column and row exactly as
passed to `cursor::Goto`. -/
inductive Token where
  | goto (col row : Nat)
  | setFg (c : Color)
  | setBg (c : Color)
  | glyph (c : Char)
deriving DecidableEq

/-- Terminal byte encoding of the foreground SGR codes emitted by termion for
the 4-color palette. -/
def Color.fgCode : Color → String
  | Color.White => "\x1b[37m"
  | Color.Black => "\x1b[30m"
  | Color.LightWhite => "\x1b[97m"
  | Color.Blue => "\x1b[34m"

/-- Terminal byte encoding of the background SGR codes emitted by termion. -/
def Color.bgCode : Color → String
  | Color.White => "\x1b[47m"
  | Color.Black => "\x1b[40m"
  | Color.LightWhite => "\x1b[107m"
  | Color.Blue => "\x1b[44m"

/-- Terminal byte encoding of one output token (`cursor::Goto(col, row)`
serializes with the row first). -/
def Token.serialize : Token → String
  | Token.goto col row => "\x1b[" ++ toString row ++ ";" ++ toString col ++ "H"
  | Token.setFg c => c.fgCode
  | Token.setBg c => c.bgCode
  | Token.glyph c => String.singleton c

/-- Concatenation of the serialized tokens: the `String` that `render_ansi`
returns. -/
def serializeTokens (ts : List Token) : String :=
  String.join (ts.map Token.serialize)

/-- Loop state of `render_ansi`: the front grid being committed to, the last
written position, the last emitted attributes, and the output accumulated so
far. -/
structure RenderSt where
  front : Grid
  lastPos : Nat × Nat
  lastFg : Color
  lastBg : Color
  out : List Token

/-- Body of the `render_ansi` double loop for one cell position `(col, row)`:
compare front (via `get_mut`, which can fault) with back; if they differ, emit
an optional absolute goto (skipped when the last written position is
`(col.saturating_sub(1), row)`), an optional foreground and background code,
and the glyph, then commit the back cell into front and record the position.
The successive `push_str`/`push` calls of the source are written as one
append of the four (possibly empty) pieces, grouped to the right of the
output accumulated so far; `++` associativity makes this the same string. -/
def renderCell (back : Grid) (st : RenderSt) (p : Nat × Nat) : Option RenderSt :=
  match st.front.get_mut? p with
  | none => none
  | some frontCell =>
    if frontCell ≠ back.get p then
      some ⟨st.front.set p (back.get p), p,
            (if st.lastFg ≠ (back.get p).fg then (back.get p).fg else st.lastFg),
            (if st.lastBg ≠ (back.get p).bg then (back.get p).bg else st.lastBg),
            st.out ++
              ((if st.lastPos ≠ (p.1 - 1, p.2)
                then [Token.goto (p.1 + 1) (p.2 + 1)] else []) ++
               ((if st.lastFg ≠ (back.get p).fg
                 then [Token.setFg (back.get p).fg] else []) ++
                ((if st.lastBg ≠ (back.get p).bg
                  then [Token.setBg (back.get p).bg] else []) ++
                 [Token.glyph (back.get p).ch])))⟩
    else
      some st

/-- Row-major scan order of the double loop: all `(col, row)` with
`row ∈ [0, h)` outer and `col ∈ [0, w)` inner. -/
def positions (w h : Nat) : List (Nat × Nat) :=
  (List.range h).flatMap (fun row => (List.range w).map (fun col => (col, row)))

/-- Sequencing of `renderCell` over a list of positions, propagating the
faulting case. -/
def renderLoop (back : Grid) : List (Nat × Nat) → RenderSt → Option RenderSt
  | [], st => some st
  | p :: rest, st =>
    match renderCell back st p with
    | none => none
    | some st1 => renderLoop back rest st1

/-- RenderBuffer::render_ansi: runs the diff loop over all positions starting
from `last_pos = Vec2::one() = (1, 1)` and the default attributes, returning
the emitted tokens and the committed buffer. `none` models the panic of the
front-grid `get_mut` when the front grid is smaller than the buffer size. -/
def RenderBuffer.render_ansi (b : RenderBuffer) :
    Option (List Token × RenderBuffer) :=
  match renderLoop b.back (positions b.w b.h) ⟨b.front, (1, 1), DEFAULT_FG, DEFAULT_BG, []⟩ with
  | none => none
  | some st => some (st.out, { b with front := st.front })

/-- Well-formedness of a RenderBuffer, as maintained by `new` and `resize`:
both grids have exactly the buffer's dimensions and a full backing vector. -/
def RenderBuffer.wf (b : RenderBuffer) : Prop :=
  b.front.w = b.w ∧ b.front.h = b.h ∧ b.front.cells.length = b.w * b.h ∧
  b.back.w = b.w ∧ b.back.h = b.h ∧ b.back.cells.length = b.w * b.h

instance (b : RenderBuffer) : Decidable b.wf := by
  unfold RenderBuffer.wf; infer_instance

/-! Lemmas about the diff loop. -/

/-- Glyph-token discriminator, used to count emitted glyphs. -/
def isGlyphB : Token → Bool
  | Token.glyph _ => true
  | _ => false

/-- Disagreement test between two grids at a position, used to count the
cells the diff loop must emit. -/
def diffB (F0 back : Grid) (p : Nat × Nat) : Bool :=
  decide (F0.get p ≠ back.get p)

theorem diffB_eq_false {F0 back : Grid} {p : Nat × Nat}
    (h : F0.get p = back.get p) : diffB F0 back p = false := by
  simp [diffB, h]

theorem diffB_eq_true {F0 back : Grid} {p : Nat × Nat}
    (h : F0.get p ≠ back.get p) : diffB F0 back p = true := by
  simp [diffB, h]

theorem mem_positions {w h : Nat} {p : Nat × Nat} :
    p ∈ positions w h ↔ p.1 < w ∧ p.2 < h := by
  cases p with
  | mk x y =>
    simp only [positions, List.mem_flatMap, List.mem_map, List.mem_range, Prod.mk.injEq]
    constructor
    · rintro ⟨row, hrow, col, hcol, hx, hy⟩
      subst hx; subst hy
      exact ⟨hcol, hrow⟩
    · rintro ⟨hx, hy⟩
      exact ⟨y, hy, x, hx, rfl, rfl⟩

theorem nodup_positions (w h : Nat) : (positions w h).Nodup := by
  unfold positions
  rw [List.nodup_flatMap]
  constructor
  · intro row _
    exact (List.nodup_range w).map (fun a b hab => by
      injection hab)
  · have : ∀ r1 r2 : Nat, r1 ≠ r2 →
        List.Disjoint ((List.range w).map (fun col => (col, r1)))
          ((List.range w).map (fun col => (col, r2))) := by
      intro r1 r2 hne q hq1 hq2
      simp only [List.mem_map, List.mem_range] at hq1 hq2
      obtain ⟨c1, _, he1⟩ := hq1
      obtain ⟨c2, _, he2⟩ := hq2
      apply hne
      rw [← he1] at he2
      injection he2 with h1 h2
      exact h2.symm
    exact List.Pairwise.imp_of_mem (fun {a b} _ _ hne => this a b hne)
      ((List.nodup_range h).imp (fun hab => hab))

/-- Elimination principle for one successful `renderCell` step: either the
cell was already up to date and nothing changed, or the back cell was
committed, at most four tokens were appended (any goto among them targeting
exactly this cell, and exactly one glyph). In both cases the front grid now
agrees with back at `p`. -/
theorem renderCell_some_elim {back : Grid} {st st' : RenderSt} {p : Nat × Nat}
    (h : renderCell back st p = some st') :
    st'.front.get p = back.get p ∧
    ((st.front.get p = back.get p ∧ st' = st) ∨
     (st.front.get p ≠ back.get p ∧
      st'.front = st.front.set p (back.get p) ∧
      ∃ d, st'.out = st.out ++ d ∧ d.length ≤ 4 ∧ d.countP isGlyphB = 1 ∧
        (∀ a b2, Token.goto a b2 ∈ d → a = p.1 + 1 ∧ b2 = p.2 + 1))) := by
  unfold renderCell at h
  cases hm : st.front.get_mut? p with
  | none => rw [hm] at h; exact absurd h (by simp)
  | some fc =>
    simp only [hm] at h
    have hget : st.front.get p = fc := st.front.get_of_get_mut? p fc hm
    by_cases hne : fc ≠ back.get p
    · rw [if_pos hne] at h
      injection h with h
      subst h
      refine ⟨Grid.get_set_self st.front p fc (back.get p) hm, Or.inr ⟨?_, rfl, ?_⟩⟩
      · rw [hget]; exact hne
      · refine ⟨_, rfl, ?_, ?_, ?_⟩
        · split_ifs <;> simp
        · split_ifs <;> rfl
        · intro a b2 hmem
          split_ifs at hmem <;> simp_all [isGlyphB]
    · rw [if_neg hne] at h
      injection h with h
      subst h
      have heq : fc = back.get p := not_not.mp hne
      exact ⟨by rw [hget, heq], Or.inl ⟨by rw [hget, heq], rfl⟩⟩

/-- A successful `get_mut?` makes `renderCell` succeed. -/
theorem renderCell_some_of_get_mut? (back : Grid) {st : RenderSt} {p : Nat × Nat}
    {fc : Cell} (hm : st.front.get_mut? p = some fc) :
    ∃ st', renderCell back st p = some st' := by
  unfold renderCell
  simp only [hm]
  by_cases hne : fc ≠ back.get p
  · rw [if_pos hne]; exact ⟨_, rfl⟩
  · rw [if_neg hne]; exact ⟨st, rfl⟩

/-- An up-to-date in-range cell is skipped: the state is left untouched. -/
theorem renderCell_skip (back : Grid) {st : RenderSt} {p : Nat × Nat}
    (hv : st.front.validPos p)
    (hlen : st.front.cells.length = st.front.w * st.front.h)
    (heq : st.front.get p = back.get p) :
    renderCell back st p = some st := by
  have hm := st.front.get_mut?_valid p hlen hv
  unfold renderCell
  simp only [hm]
  rw [if_neg (show ¬ (st.front.get p ≠ back.get p) from fun hcon => hcon heq)]

theorem renderCell_dims {back : Grid} {st st' : RenderSt} {p : Nat × Nat}
    (h : renderCell back st p = some st') :
    st'.front.w = st.front.w ∧ st'.front.h = st.front.h ∧
    st'.front.cells.length = st.front.cells.length := by
  rcases (renderCell_some_elim h).2 with ⟨_, hst⟩ | ⟨_, hfr, _⟩
  · subst hst; exact ⟨rfl, rfl, rfl⟩
  · rw [hfr]
    exact ⟨Grid.set_w _ _ _, Grid.set_h _ _ _, Grid.set_length _ _ _⟩

theorem renderCell_get_other {back : Grid} {st st' : RenderSt} {p q : Nat × Nat}
    (h : renderCell back st p = some st') (hne : q ≠ p) :
    st'.front.get q = st.front.get q := by
  rcases (renderCell_some_elim h).2 with ⟨_, hst⟩ | ⟨_, hfr, _⟩
  · subst hst; rfl
  · rw [hfr]; exact Grid.get_set_other st.front p q (back.get p) hne

theorem renderLoop_dims {back : Grid} :
    ∀ (L : List (Nat × Nat)) (st st' : RenderSt),
    renderLoop back L st = some st' →
    st'.front.w = st.front.w ∧ st'.front.h = st.front.h ∧
    st'.front.cells.length = st.front.cells.length := by
  intro L
  induction L with
  | nil =>
    intro st st' h
    unfold renderLoop at h
    injection h with h
    subst h
    exact ⟨rfl, rfl, rfl⟩
  | cons p rest ih =>
    intro st st' h
    unfold renderLoop at h
    cases hc : renderCell back st p with
    | none => rw [hc] at h; exact absurd h (by simp)
    | some st1 =>
      rw [hc] at h
      obtain ⟨w1, h1, l1⟩ := renderCell_dims hc
      obtain ⟨w2, h2, l2⟩ := ih st1 st' h
      exact ⟨w2.trans w1, h2.trans h1, l2.trans l1⟩

theorem renderLoop_total (back : Grid) :
    ∀ (L : List (Nat × Nat)) (st : RenderSt),
    (∀ p ∈ L, st.front.validPos p) →
    st.front.cells.length = st.front.w * st.front.h →
    ∃ st', renderLoop back L st = some st' := by
  intro L
  induction L with
  | nil => intro st _ _; exact ⟨st, rfl⟩
  | cons p rest ih =>
    intro st hv hlen
    have hm := st.front.get_mut?_valid p hlen (hv p (by simp))
    obtain ⟨st1, hst1⟩ := renderCell_some_of_get_mut? back hm
    obtain ⟨dw, dh, dl⟩ := renderCell_dims hst1
    have hv1 : ∀ q ∈ rest, st1.front.validPos q := by
      intro q hq
      have := hv q (by simp [hq])
      unfold Grid.validPos at this ⊢
      rw [dw, dh]
      exact this
    have hlen1 : st1.front.cells.length = st1.front.w * st1.front.h := by
      rw [dw, dh, dl]
      exact hlen
    obtain ⟨st', hst'⟩ := ih st1 hv1 hlen1
    exact ⟨st', by unfold renderLoop; rw [hst1]; exact hst'⟩

theorem renderLoop_get_preserve {back : Grid} :
    ∀ (L : List (Nat × Nat)) (st st' : RenderSt) (q : Nat × Nat),
    renderLoop back L st = some st' →
    st.front.get q = back.get q → st'.front.get q = back.get q := by
  intro L
  induction L with
  | nil =>
    intro st st' q h hq
    unfold renderLoop at h
    injection h with h
    subst h
    exact hq
  | cons p rest ih =>
    intro st st' q h hq
    unfold renderLoop at h
    cases hc : renderCell back st p with
    | none => rw [hc] at h; exact absurd h (by simp)
    | some st1 =>
      rw [hc] at h
      by_cases hqp : q = p
      · subst hqp
        exact ih st1 st' q h (renderCell_some_elim hc).1
      · exact ih st1 st' q h (by rw [renderCell_get_other hc hqp]; exact hq)

theorem renderLoop_get_mem {back : Grid} :
    ∀ (L : List (Nat × Nat)) (st st' : RenderSt),
    renderLoop back L st = some st' →
    ∀ p ∈ L, st'.front.get p = back.get p := by
  intro L
  induction L with
  | nil => intro st st' _ p hp; exact absurd hp (by simp)
  | cons r rest ih =>
    intro st st' h p hp
    unfold renderLoop at h
    cases hc : renderCell back st r with
    | none => rw [hc] at h; exact absurd h (by simp)
    | some st1 =>
      rw [hc] at h
      rcases List.mem_cons.mp hp with hpr | hpr
      · subst hpr
        exact renderLoop_get_preserve rest st1 st' p h (renderCell_some_elim hc).1
      · exact ih st1 st' h p hpr

theorem renderLoop_skip_all (back : Grid) :
    ∀ (L : List (Nat × Nat)) (st : RenderSt),
    (∀ p ∈ L, st.front.validPos p) →
    st.front.cells.length = st.front.w * st.front.h →
    (∀ p ∈ L, st.front.get p = back.get p) →
    renderLoop back L st = some st := by
  intro L
  induction L with
  | nil => intro st _ _ _; rfl
  | cons p rest ih =>
    intro st hv hlen heq
    have hskip := renderCell_skip back (hv p (by simp)) hlen
      (heq p (by simp))
    unfold renderLoop
    rw [hskip]
    exact ih st (fun q hq => hv q (by simp [hq])) hlen
      (fun q hq => heq q (by simp [hq]))

/-- Output characterization of the loop, relative to the front grid `F0` the
loop started from: every emitted goto targets a position of the scan list at
which front and back disagreed initially; the number of emitted glyphs is the
number of initially disagreeing scan positions; and at most 4 tokens are
emitted per disagreeing position. -/
theorem renderLoop_out (back F0 : Grid) :
    ∀ (L : List (Nat × Nat)) (st st' : RenderSt),
    renderLoop back L st = some st' →
    (∀ p ∈ L, st.front.get p = F0.get p) →
    L.Nodup →
    (∀ a b2, Token.goto a b2 ∈ st'.out → Token.goto a b2 ∈ st.out ∨
       ∃ p, p ∈ L ∧ a = p.1 + 1 ∧ b2 = p.2 + 1 ∧ F0.get p ≠ back.get p) ∧
    st'.out.countP isGlyphB = st.out.countP isGlyphB + L.countP (diffB F0 back) ∧
    st'.out.length ≤ st.out.length + 4 * L.countP (diffB F0 back) := by
  intro L
  induction L with
  | nil =>
    intro st st' h _ _
    unfold renderLoop at h
    injection h with h
    subst h
    exact ⟨fun a b2 hmem => Or.inl hmem, by simp [List.countP_nil], by simp⟩
  | cons p rest ih =>
    intro st st' h hinv hnd
    unfold renderLoop at h
    cases hc : renderCell back st p with
    | none => rw [hc] at h; exact absurd h (by simp)
    | some st1 =>
      rw [hc] at h
      have hndr : rest.Nodup := (List.nodup_cons.mp hnd).2
      have hpnr : p ∉ rest := (List.nodup_cons.mp hnd).1
      have hfp : st.front.get p = F0.get p := hinv p (by simp)
      rcases (renderCell_some_elim hc).2 with ⟨heq, hst⟩ | ⟨hneq, hfr, d, hout, hdlen, hdcnt, hdgoto⟩
      · -- skipped cell: front and back agreed here already
        subst hst
        have hF0eq : F0.get p = back.get p := by rw [← hfp]; exact heq
        have hinv1 : ∀ q ∈ rest, st1.front.get q = F0.get q :=
          fun q hq => hinv q (by simp [hq])
        obtain ⟨hg, hcnt, hlen⟩ := ih st1 st' h hinv1 hndr
        refine ⟨?_, ?_, ?_⟩
        · intro a b2 hmem
          rcases hg a b2 hmem with hin | ⟨q, hq, h1, h2, h3⟩
          · exact Or.inl hin
          · exact Or.inr ⟨q, by simp [hq], h1, h2, h3⟩
        · rw [hcnt, List.countP_cons, diffB_eq_false hF0eq]
          simp
        · rw [List.countP_cons, diffB_eq_false hF0eq]
          simp only [Bool.false_eq_true, if_false, Nat.add_zero]
          exact hlen
      · -- committed cell: front and back disagreed here
        have hF0ne : F0.get p ≠ back.get p := by rw [← hfp]; exact hneq
        have hinv1 : ∀ q ∈ rest, st1.front.get q = F0.get q := by
          intro q hq
          have hqp : q ≠ p := fun hcon => hpnr (hcon ▸ hq)
          rw [renderCell_get_other hc hqp]
          exact hinv q (by simp [hq])
        obtain ⟨hg, hcnt, hlen⟩ := ih st1 st' h hinv1 hndr
        refine ⟨?_, ?_, ?_⟩
        · intro a b2 hmem
          rcases hg a b2 hmem with hin | ⟨q, hq, h1, h2, h3⟩
          · rw [hout] at hin
            rcases List.mem_append.mp hin with hin | hin
            · exact Or.inl hin
            · obtain ⟨h1, h2⟩ := hdgoto a b2 hin
              exact Or.inr ⟨p, by simp, h1, h2, hF0ne⟩
          · exact Or.inr ⟨q, by simp [hq], h1, h2, h3⟩
        · rw [hcnt, hout, List.countP_append, hdcnt, List.countP_cons, diffB_eq_true hF0ne]
          simp only [if_true]
          omega
        · rw [hout, List.length_append] at hlen
          rw [List.countP_cons, diffB_eq_true hF0ne]
          simp only [if_true]
          omega

/-- Shared driver: on a well-formed buffer the diff loop succeeds, the
committed front grid agrees with back everywhere, and well-formedness is
preserved. -/
theorem render_ansi_run (b : RenderBuffer) (hwf : b.wf) :
    ∃ st', renderLoop b.back (positions b.w b.h)
        ⟨b.front, (1, 1), DEFAULT_FG, DEFAULT_BG, []⟩ = some st' ∧
      b.render_ansi = some (st'.out, { b with front := st'.front }) ∧
      (∀ p : Nat × Nat, st'.front.get p = b.back.get p) ∧
      ({ b with front := st'.front } : RenderBuffer).wf := by
  obtain ⟨hfw, hfh, hfl, hbw, hbh, hbl⟩ := hwf
  have hv : ∀ p ∈ positions b.w b.h,
      (RenderSt.mk b.front (1, 1) DEFAULT_FG DEFAULT_BG []).front.validPos p := by
    intro p hp
    obtain ⟨h1, h2⟩ := mem_positions.mp hp
    exact ⟨by rw [hfw]; exact h1, by rw [hfh]; exact h2⟩
  have hlen : (RenderSt.mk b.front (1, 1) DEFAULT_FG DEFAULT_BG []).front.cells.length =
      (RenderSt.mk b.front (1, 1) DEFAULT_FG DEFAULT_BG []).front.w *
      (RenderSt.mk b.front (1, 1) DEFAULT_FG DEFAULT_BG []).front.h := by
    show b.front.cells.length = b.front.w * b.front.h
    rw [hfw, hfh]
    exact hfl
  obtain ⟨st', hst'⟩ := renderLoop_total b.back (positions b.w b.h) _ hv hlen
  obtain ⟨dw, dh, dl⟩ := renderLoop_dims _ _ _ hst'
  refine ⟨st', hst', ?_, ?_, ?_⟩
  · unfold RenderBuffer.render_ansi
    rw [hst']
  · intro p
    by_cases hp : p.1 < b.w ∧ p.2 < b.h
    · exact renderLoop_get_mem _ _ _ hst' p (mem_positions.mpr hp)
    · have hvf : ¬ st'.front.validPos p := by
        unfold Grid.validPos
        rw [dw, dh]
        show ¬ (p.1 < b.front.w ∧ p.2 < b.front.h)
        rw [hfw, hfh]
        exact hp
      have hvb : ¬ b.back.validPos p := by
        unfold Grid.validPos
        rw [hbw, hbh]
        exact hp
      rw [Grid.get_invalid _ p hvf, Grid.get_invalid _ p hvb]
  · refine ⟨?_, ?_, ?_, hbw, hbh, hbl⟩
    · show st'.front.w = b.w
      rw [dw]; exact hfw
    · show st'.front.h = b.h
      rw [dh]; exact hfh
    · show st'.front.cells.length = b.w * b.h
      rw [dl]; exact hfl

/-! Claim theorems about the renderer. -/

/-- C1: for every well-formed RenderBuffer, after `render_ansi()` returns,
the front grid equals the back grid at every cell position. -/
theorem render_ansi_front_eq_back (b : RenderBuffer) (hwf : b.wf) :
    ∃ out b', b.render_ansi = some (out, b') ∧
      ∀ p : Nat × Nat, b'.front.get p = b'.back.get p := by
  obtain ⟨st', _, hrender, hagree, _⟩ := render_ansi_run b hwf
  exact ⟨st'.out, _, hrender, fun p => hagree p⟩

/-- Witness for C1 at a concrete buffer with one drawn cell. -/
theorem render_ansi_front_eq_back_witness :
    ∃ out b', ((RenderBuffer.new 2 2).set_cell (0, 0) 'A').render_ansi = some (out, b') ∧
      ∀ p : Nat × Nat, b'.front.get p = b'.back.get p :=
  render_ansi_front_eq_back ((RenderBuffer.new 2 2).set_cell (0, 0) 'A') (by decide)

/-- C2: calling `render_ansi()` twice in succession with no intervening
drawing operation returns the empty string from the second call. -/
theorem render_ansi_second_empty (b : RenderBuffer) (hwf : b.wf) :
    ∃ out b' out2 b'', b.render_ansi = some (out, b') ∧
      b'.render_ansi = some (out2, b'') ∧ serializeTokens out2 = "" := by
  obtain ⟨st', hloop, hrender, hagree, hwf'⟩ := render_ansi_run b hwf
  obtain ⟨hfw', hfh', hfl', hbw', hbh', hbl'⟩ := hwf'
  have hv : ∀ p ∈ positions b.w b.h,
      (RenderSt.mk st'.front (1, 1) DEFAULT_FG DEFAULT_BG []).front.validPos p := by
    intro p hp
    obtain ⟨h1, h2⟩ := mem_positions.mp hp
    exact ⟨by rw [show st'.front.w = b.w from hfw']; exact h1,
           by rw [show st'.front.h = b.h from hfh']; exact h2⟩
  have hlen : (RenderSt.mk st'.front (1, 1) DEFAULT_FG DEFAULT_BG []).front.cells.length =
      (RenderSt.mk st'.front (1, 1) DEFAULT_FG DEFAULT_BG []).front.w *
      (RenderSt.mk st'.front (1, 1) DEFAULT_FG DEFAULT_BG []).front.h := by
    show st'.front.cells.length = st'.front.w * st'.front.h
    rw [show st'.front.w = b.w from hfw', show st'.front.h = b.h from hfh']
    exact hfl'
  have hskip := renderLoop_skip_all b.back (positions b.w b.h)
    (RenderSt.mk st'.front (1, 1) DEFAULT_FG DEFAULT_BG []) hv hlen
    (fun p _ => hagree p)
  have hsecond : ({ b with front := st'.front } : RenderBuffer).render_ansi =
      some ([], { b with front := st'.front }) := by
    unfold RenderBuffer.render_ansi
    rw [hskip]
  exact ⟨st'.out, _, [], _, hrender, hsecond, rfl⟩

/-- Witness for C2 at a concrete buffer with one drawn cell. -/
theorem render_ansi_second_empty_witness :
    ∃ out b' out2 b'', ((RenderBuffer.new 2 2).set_cell (1, 1) 'Z').render_ansi = some (out, b') ∧
      b'.render_ansi = some (out2, b'') ∧ serializeTokens out2 = "" :=
  render_ansi_second_empty ((RenderBuffer.new 2 2).set_cell (1, 1) 'Z') (by decide)

/-- C3: every cell position at which front equals back before the call
contributes zero bytes to the output: no goto token targets such a position,
the number of emitted glyphs equals the number of disagreeing positions, and
each disagreeing position accounts for at most 4 tokens of the whole output
(so agreeing cells contribute no glyph, color or cursor bytes at all). -/
theorem render_ansi_diff_minimal (b : RenderBuffer) (out : List Token)
    (b' : RenderBuffer) (hwf : b.wf) (hr : b.render_ansi = some (out, b')) :
    (∀ p : Nat × Nat, b.front.get p = b.back.get p →
        Token.goto (p.1 + 1) (p.2 + 1) ∉ out) ∧
    out.countP isGlyphB = (positions b.w b.h).countP (diffB b.front b.back) ∧
    out.length ≤ 4 * (positions b.w b.h).countP (diffB b.front b.back) := by
  obtain ⟨st', hloop, hrender, _, _⟩ := render_ansi_run b hwf
  rw [hrender] at hr
  injection hr with hr
  injection hr with hr1 hr2
  subst hr1
  obtain ⟨hg, hcnt, hlen⟩ := renderLoop_out b.back b.front
    (positions b.w b.h) _ st' hloop (fun p _ => rfl) (nodup_positions b.w b.h)
  refine ⟨?_, by simpa using hcnt, by simpa using hlen⟩
  intro p hpeq hmem
  rcases hg _ _ hmem with hin | ⟨q, _, h1, h2, h3⟩
  · exact absurd hin (by simp)
  · apply h3
    have hq1 : q.1 = p.1 := by omega
    have hq2 : q.2 = p.2 := by omega
    rw [Prod.ext hq1 hq2]
    exact hpeq

/-- Concrete buffer used to witness C3: a 2×2 buffer with one drawn cell. -/
def demoBuf : RenderBuffer := (RenderBuffer.new 2 2).set_cell (0, 0) 'A'

/-- Output of `render_ansi` on `demoBuf`. -/
def demoOut : List Token := [Token.goto 1 1, Token.glyph 'A']

/-- Committed buffer after rendering `demoBuf`. -/
def demoBuf' : RenderBuffer :=
  { demoBuf with front := demoBuf.front.set (0, 0) ⟨'A', DEFAULT_FG, DEFAULT_BG⟩ }

/-- Witness for C3 at `demoBuf`. -/
theorem render_ansi_diff_minimal_witness :
    (∀ p : Nat × Nat, demoBuf.front.get p = demoBuf.back.get p →
        Token.goto (p.1 + 1) (p.2 + 1) ∉ demoOut) ∧
    demoOut.countP isGlyphB =
      (positions demoBuf.w demoBuf.h).countP (diffB demoBuf.front demoBuf.back) ∧
    demoOut.length ≤
      4 * (positions demoBuf.w demoBuf.h).countP (diffB demoBuf.front demoBuf.back) :=
  render_ansi_diff_minimal demoBuf demoOut demoBuf' (by decide) (by decide)

/-- Buffer exhibiting the sentinel collision of `render_ansi`: a 4×4 buffer
whose only difference from its front grid is at `(col, row) = (2, 1)`, the
cell whose left neighbor is the initial `last_pos = Vec2::one() = (1, 1)`. -/
def c4Buf : RenderBuffer := (RenderBuffer.new 4 4).set_cell (2, 1) 'X'

/-- C4 (refuting evaluation): rendering `c4Buf` emits the glyph alone, with
no cursor-position code before it, although `(2, 1)` is the first (and only)
differing cell of the call — the spurious match between the `(1, 1)` sentinel
and the left neighbor of `(2, 1)` suppresses the goto, contradicting the
claim that the first differing cell is always preceded by a goto (and the
source comment calling the sentinel "a completely incorrect value"). -/
theorem render_first_diff_no_goto :
    (c4Buf.render_ansi).map Prod.fst = some [Token.glyph 'X'] := by decide

/-! Menu and MenuBar from `menu.rs`. -/

/-- Action from `menu.rs`: the closed set of application-level commands. -/
inductive Action where
  | Close
  | New
  | Save
  | SaveAs
  | Open
  | About
  | Scripted
deriving DecidableEq

mutual
/-- Menu from `menu.rs`: an ordered list of (label, MenuAction) children. -/
inductive Menu where
  | mk (children : List (String × MenuAction))

/-- MenuAction from `menu.rs`: a menu entry is a separator, an action, or a
nested sub-menu. -/
inductive MenuAction where
  | Separator : MenuAction
  | Action : Action → MenuAction
  | SubMenu : Menu → MenuAction
end

/-- Accessor for the children list of a Menu. -/
def Menu.children : Menu → List (String × MenuAction)
  | Menu.mk cs => cs

/-- Separator discriminator. -/
def MenuAction.isSeparator : MenuAction → Bool
  | MenuAction.Separator => true
  | _ => false

/-- Character-level loop of `get_menu_shortcut_from_name`: scan for the first
underscore and return the character after it; `none` models both panics (no
underscore at all, or an underscore with nothing after it). -/
def shortcutAux : List Char → Option Char
  | [] => none
  | c :: rest => if c = '_' then rest.head? else shortcutAux rest

/-- get_menu_shortcut_from_name from `menu.rs`. -/
def get_menu_shortcut_from_name (name : String) : Option Char :=
  shortcutAux name.data

/-- Display length of a label as computed throughout `menu.rs`:
`if name.contains("_") { name.len() - 1 } else { name.len() }` (byte length;
the substring test for the one-character pattern `"_"` is character
membership). -/
def stripped_len (name : String) : Nat :=
  if name.data.contains '_' then name.utf8ByteSize - 1 else name.utf8ByteSize

/-- Menu::get_menu_width: `2 +` the maximum display length of the children's
labels; `none` models the `expect("Empty menu has no width")` panic. The
iterator `max` of a nonempty list equals a `Nat.max` fold from 0. -/
def Menu.get_menu_width (m : Menu) : Option Nat :=
  if m.children.isEmpty then none
  else some (2 + (m.children.map (fun e => stripped_len e.1)).foldl Nat.max 0)

/-- Visible label text of a non-separator entry: the label with each
underscore marker dropped (keeping the shortcut letter after it); `none`
models the `chars.next().unwrap()` panic on a trailing underscore. The SGR
highlight codes wrapped around the shortcut letter in the source affect only
styling, not the visible characters, and are not modeled. -/
def stripShortcutMarker : List Char → Option (List Char)
  | [] => some []
  | c :: rest =>
    if c = '_' then
      match rest with
      | [] => none
      | c2 :: rest2 => (stripShortcutMarker rest2).map (fun t => c2 :: t)
    else
      (stripShortcutMarker rest).map (fun t => c :: t)

/-- Abstract drawing command emitted by Menu::render. `rect` and `outline`
stand for `crate::util::draw_rectangle` / `draw_thin_unfilled_rectangle`,
whose bodies are not part of `src/`; they are opaque drawing effects here. -/
inductive RCmd where
  | rect (x y w h : Nat)
  | outline (x y w h : Nat)
  | item (x y : Nat) (selected : Bool) (text : List Char)

/-- Menu::render: computes the width (faulting on an empty menu), draws the
background rectangle and the outline, then one row per child at
`(origin.x + 1, origin.y + 1 + i)`: a separator renders `width - 2` rule
characters, any other entry renders its de-markered label padded with spaces
to `width - 2` columns. -/
def Menu.render (m : Menu) (origin : Nat × Nat) (selection_index : Nat) :
    Option (List RCmd) :=
  match m.get_menu_width with
  | none => none
  | some width =>
    match m.children.enum.mapM (fun ie =>
        match ie.2.2 with
        | MenuAction.Separator =>
          some (RCmd.item (origin.1 + 1) (origin.2 + 1 + ie.1)
            (ie.1 == selection_index) (List.replicate (width - 2) '─'))
        | _ =>
          (stripShortcutMarker ie.2.1.data).map (fun t =>
            RCmd.item (origin.1 + 1) (origin.2 + 1 + ie.1) (ie.1 == selection_index)
              (t ++ List.replicate (width - 2 - stripped_len ie.2.1) ' '))) with
    | none => none
    | some items =>
      some (RCmd.rect origin.1 origin.2 width (m.children.length + 2) ::
            RCmd.outline origin.1 origin.2 width (m.children.length + 2) :: items)

/-- One wrapping step of Menu::next: `if i + 1 >= len { 0 } else { i + 1 }`. -/
def Menu.nextStep (m : Menu) (i : Nat) : Nat :=
  if i + 1 ≥ m.children.length then 0 else i + 1

/-- Fuel-indexed unfolding of the recursion in Menu::next: advance one step,
then recurse while the entry reached is a Separator. `none` stands for
non-termination (the recursion never reaching a non-separator entry within
any bound) and for the index panic on an empty menu. -/
def nextAux (m : Menu) : Nat → Nat → Option Nat
  | 0, _ => none
  | fuel + 1, i =>
    match m.children[m.nextStep i]? with
    | some (_, MenuAction.Separator) => nextAux m fuel (m.nextStep i)
    | some _ => some (m.nextStep i)
    | none => none

/-- Menu::next. A fuel of `children.length + 1` is exhaustive: the wrapping
step cycles through every index, so if no non-separator entry is found in
that many steps the source recursion never terminates. -/
def Menu.next (m : Menu) (i : Nat) : Option Nat :=
  nextAux m (m.children.length + 1) i

/-- One wrapping step of Menu::previous:
`if i as isize - 1 < 0 { len - 1 } else { i - 1 }`. -/
def Menu.prevStep (m : Menu) (i : Nat) : Nat :=
  if i = 0 then m.children.length - 1 else i - 1

/-- Fuel-indexed unfolding of the recursion in Menu::previous. -/
def prevAux (m : Menu) : Nat → Nat → Option Nat
  | 0, _ => none
  | fuel + 1, i =>
    match m.children[m.prevStep i]? with
    | some (_, MenuAction.Separator) => prevAux m fuel (m.prevStep i)
    | some _ => some (m.prevStep i)
    | none => none

/-- Menu::previous. -/
def Menu.previous (m : Menu) (i : Nat) : Option Nat :=
  prevAux m (m.children.length + 1) i

/-- Child-list loop of Menu::maybe_handle_key_press: skip separators, extract
each remaining entry's shortcut (the extraction panic propagates as the outer
`none`, exactly as the lazy `filter_map` iterator panics when it reaches a
label without a marker), and return the first case-insensitive match. The
outer `some none` means no child matched. -/
def mhkpAux (key : Char) : List (String × MenuAction) → Option (Option MenuAction)
  | [] => some none
  | (_, MenuAction.Separator) :: rest => mhkpAux key rest
  | (name, a) :: rest =>
    match get_menu_shortcut_from_name name with
    | none => none
    | some c => if c.toLower = key then some (some a) else mhkpAux key rest

/-- Menu::maybe_handle_key_press (the pressed key is lowercased first). -/
def Menu.maybe_handle_key_press (m : Menu) (key : Char) :
    Option (Option MenuAction) :=
  mhkpAux key.toLower m.children

/-- Keyboard events as matched by Menu::take_over: Up, Down, a character
(Enter is `Char '\n'`), and any other key. -/
inductive Key where
  | Up
  | Down
  | Char (c : Char)
  | Other
deriving DecidableEq

/-- Outcome of the modal take-over loop on a finite input list: `ok res rest`
is a normal return (`some action` chosen, or `none` = dismissed) leaving
`rest` of the input unread; `fault` is a panic (the width/render panics on an
empty menu, `unreachable!()` on a selected separator, an out-of-bounds child
index, or a shortcut-extraction panic); `spin` is non-termination (fuel
exhausted, an all-separator `next`/`previous` recursion, or blocking forever
on exhausted input). -/
inductive TOResult where
  | ok (res : Option Action) (rest : List Key)
  | fault
  | spin
deriving DecidableEq

/-- Menu::take_over loop, fuel-indexed. Each iteration renders (propagating
render panics), reads one key, and dispatches exactly as the source `match`:
Up/Down renavigate, Enter on the selected child returns an Action, faults on
a Separator (`unreachable!()`), or recurses into a SubMenu at
`x + menu_width` (re-entering this menu's loop if the child menu was
dismissed), a printable character resolves a shortcut the same way (`break`
= dismissal when nothing matches), and any other key dismisses the menu. -/
def takeOverLoop : Nat → Menu → Nat → Nat → List Key → TOResult
  | 0, _, _, _, _ => TOResult.spin
  | fuel + 1, m, x, sel, input =>
    match m.get_menu_width with
    | none => TOResult.fault
    | some width =>
      match m.render (x, 2) sel with
      | none => TOResult.fault
      | some _ =>
        match input with
        | [] => takeOverLoop fuel m x sel []
        | k :: rest =>
          match k with
          | Key.Up =>
            match m.previous sel with
            | none => TOResult.spin
            | some j => takeOverLoop fuel m x j rest
          | Key.Down =>
            match m.next sel with
            | none => TOResult.spin
            | some j => takeOverLoop fuel m x j rest
          | Key.Char c =>
            if c = '\n' then
              match m.children[sel]? with
              | none => TOResult.fault
              | some (_, MenuAction.Separator) => TOResult.fault
              | some (_, MenuAction.Action a) => TOResult.ok (some a) rest
              | some (_, MenuAction.SubMenu sub) =>
                match takeOverLoop fuel sub (x + width) 0 rest with
                | TOResult.ok (some a) rest2 => TOResult.ok (some a) rest2
                | TOResult.ok none rest2 => takeOverLoop fuel m x sel rest2
                | r => r
            else
              match m.maybe_handle_key_press c with
              | none => TOResult.fault
              | some none => TOResult.ok none rest
              | some (some MenuAction.Separator) => TOResult.fault
              | some (some (MenuAction.Action a)) => TOResult.ok (some a) rest
              | some (some (MenuAction.SubMenu sub)) =>
                match takeOverLoop fuel sub (x + width) 0 rest with
                | TOResult.ok (some a) rest2 => TOResult.ok (some a) rest2
                | TOResult.ok none rest2 => takeOverLoop fuel m x sel rest2
                | r => r
          | Key.Other => TOResult.ok none rest

/-- Menu::take_over: enters the loop with `selection_index = 0`. -/
def Menu.take_over (m : Menu) (fuel : Nat) (x_offset : Nat) (input : List Key) :
    TOResult :=
  takeOverLoop fuel m x_offset 0 input

/-- MenuBar from `menu.rs`: a selection index and the ordered top-level
(label, Menu) pairs. -/
structure MenuBar where
  selection_index : Nat
  menus : List (String × Menu)

/-- MenuBar::get_origin_x_of_menu: `none` models the `assert!` on an empty
bar, the index panic, and (in the Help branch) the u16 underflow panic of
`terminal_size().0 - 7` when the terminal is narrower than 7 columns. The
terminal width, obtained in the source from the `terminal_size()`
collaborator, is passed as a parameter. -/
def MenuBar.get_origin_x_of_menu (bar : MenuBar) (terminalWidth : Nat)
    (idx : Nat) : Option Nat :=
  if bar.menus.isEmpty then none
  else
    match bar.menus[idx]? with
    | none => none
    | some (name, _) =>
      if name = "_Help" then
        if terminalWidth < 7 then none else some (terminalWidth - 7)
      else
        some (1 + ((bar.menus.take idx).map (fun e => e.1.utf8ByteSize)).sum
          + (idx + 1) * 1)

/-! Claim theorems about the menu subsystem. -/

theorem shortcutAux_cons_ne {a : Char} {l : List Char} (ha : a ≠ '_') :
    shortcutAux (a :: l) = shortcutAux l := by
  simp [shortcutAux, ha]

/-- C8: shortcut extraction returns the character immediately following the
first underscore marker (`"_File"` yields `'F'`, `"Sa_ve"` yields `'v'`),
and faults for every label containing no underscore. -/
theorem shortcut_extraction_spec :
    get_menu_shortcut_from_name "_File" = some 'F' ∧
    get_menu_shortcut_from_name "Sa_ve" = some 'v' ∧
    (∀ (pre post : List Char) (c : Char), '_' ∉ pre →
      shortcutAux (pre ++ '_' :: c :: post) = some c) ∧
    (∀ name : List Char, '_' ∉ name → shortcutAux name = none) := by
  refine ⟨by decide, by decide, ?_, ?_⟩
  · intro pre post c hpre
    induction pre with
    | nil => simp [shortcutAux]
    | cons a as ih =>
      have ha : a ≠ '_' := fun hcon => hpre (hcon ▸ List.mem_cons_self a as)
      rw [List.cons_append, shortcutAux_cons_ne ha]
      exact ih (fun hmem => hpre (List.mem_cons_of_mem a hmem))
  · intro name hname
    induction name with
    | nil => rfl
    | cons a as ih =>
      have ha : a ≠ '_' := fun hcon => hname (hcon ▸ List.mem_cons_self a as)
      rw [shortcutAux_cons_ne ha]
      exact ih (fun hmem => hname (List.mem_cons_of_mem a hmem))

/-- Witness for C8 on the label `"Sa_ve"` and the markerless label `"File"`. -/
theorem shortcut_extraction_spec_witness :
    shortcutAux (['S', 'a'] ++ '_' :: 'v' :: ['e']) = some 'v' ∧
    shortcutAux ['F', 'i', 'l', 'e'] = none :=
  ⟨shortcut_extraction_spec.2.2.1 ['S', 'a'] ['e'] 'v' (by decide),
   shortcut_extraction_spec.2.2.2 ['F', 'i', 'l', 'e'] (by decide)⟩

/-- Demo child menu used by the MenuBar examples. -/
def demoMenu : Menu := Menu.mk [("_New", MenuAction.Action Action.New)]

/-- Two-menu bar with labels `"_File"` and `"_Edit"`. -/
def demoBar : MenuBar := ⟨0, [("_File", demoMenu), ("_Edit", demoMenu)]⟩

/-- C5 counterexample: with labels `"_File"`, `"_Edit"` and terminal width
80, the code computes origin 8 for menu 1 — it sums the raw label lengths
(underscore marker included), not the display lengths the claim states,
whose formula gives 1 + 4 + 2 = 7. -/
theorem origin_formula_counterexample :
    demoBar.get_origin_x_of_menu 80 1 = some 8 ∧
    1 + ((demoBar.menus.take 1).map (fun e => stripped_len e.1)).sum + (1 + 1) = 7 ∧
    (8 : Nat) ≠ 7 := by decide

/-- C5 amended: the screen X-origin of menu `i` is `terminal_width - 7` for
the distinguished `"_Help"` entry, and otherwise
`1 + (sum of the full label byte-lengths, shortcut marker included, of all
menus before i) + (i + 1)`. -/
theorem origin_formula_amended (bar : MenuBar) (tw idx : Nat) (name : String)
    (m : Menu) (hne : bar.menus ≠ []) (hidx : bar.menus[idx]? = some (name, m))
    (htw : 7 ≤ tw) :
    bar.get_origin_x_of_menu tw idx =
      some (if name = "_Help" then tw - 7
            else 1 + ((bar.menus.take idx).map (fun e => e.1.utf8ByteSize)).sum
              + (idx + 1) * 1) := by
  unfold MenuBar.get_origin_x_of_menu
  rw [if_neg (by simp [List.isEmpty_iff, hne])]
  simp only [hidx]
  by_cases hname : name = "_Help"
  · rw [if_pos hname, if_pos hname, if_neg (Nat.not_lt.mpr htw)]
  · rw [if_neg hname, if_neg hname]

/-- Witness for C5 amended, on `demoBar` at index 0 with terminal width 80. -/
theorem origin_formula_amended_witness :
    demoBar.get_origin_x_of_menu 80 0 =
      some (if "_File" = "_Help" then 80 - 7
            else 1 + ((demoBar.menus.take 0).map (fun e => e.1.utf8ByteSize)).sum
              + (0 + 1) * 1) :=
  origin_formula_amended demoBar 80 0 "_File" demoMenu
    (by simp [demoBar]) rfl (by omega)

/-- Menu whose first entry is a Separator. -/
def sepFirstMenu : Menu :=
  Menu.mk [("-", MenuAction.Separator), ("_New", MenuAction.Action Action.New)]

/-- C6 (refuting evaluation): `take_over` starts with `selection_index = 0`
with no adjustment, so opening a menu whose first entry is a Separator rests
the selection on that Separator, and pressing Enter immediately reaches the
`unreachable!()` branch — the claimed invariant fails at initialization. -/
theorem take_over_initial_separator_fault :
    sepFirstMenu.take_over 2 0 [Key.Char '\x0a'] = TOResult.fault := by decide

/-- Menu consisting of a single Separator. -/
def sepOnlyMenu : Menu := Menu.mk [("-", MenuAction.Separator)]

/-- C7 (refuting): on a nonempty menu whose entries are all Separators,
the separator-skipping recursion of Menu::next / Menu::previous never
produces a selection no matter how much fuel it is given — the code recurses
unboundedly instead of rejecting the menu at construction or detecting the
full cycle and faulting. -/
theorem all_separator_nav_diverges (m : Menu) (hne : m.children ≠ [])
    (hsep : ∀ e ∈ m.children, MenuAction.isSeparator e.2 = true) :
    (∀ fuel i, nextAux m fuel i = none) ∧
    (∀ fuel i, prevAux m fuel i = none) := by
  have hlen : 0 < m.children.length := List.length_pos.mpr hne
  constructor
  · intro fuel
    induction fuel with
    | zero => intro i; rfl
    | succ fuel ih =>
      intro i
      have hj : m.nextStep i < m.children.length := by
        unfold Menu.nextStep
        split
        · exact hlen
        · omega
      unfold nextAux
      rw [List.getElem?_eq_getElem hj]
      rcases hE : m.children[m.nextStep i] with ⟨nm, a⟩
      have hmem : (nm, a) ∈ m.children := hE ▸ List.getElem_mem hj
      have hsepa := hsep (nm, a) hmem
      cases a with
      | Separator => simp only [hE]; exact ih (m.nextStep i)
      | Action a0 => simp [MenuAction.isSeparator] at hsepa
      | SubMenu sub => simp [MenuAction.isSeparator] at hsepa
  · intro fuel
    induction fuel with
    | zero => intro i; rfl
    | succ fuel ih =>
      intro i
      unfold prevAux
      by_cases hj : m.prevStep i < m.children.length
      · rw [List.getElem?_eq_getElem hj]
        rcases hE : m.children[m.prevStep i] with ⟨nm, a⟩
        have hmem : (nm, a) ∈ m.children := hE ▸ List.getElem_mem hj
        have hsepa := hsep (nm, a) hmem
        cases a with
        | Separator => simp only [hE]; exact ih (m.prevStep i)
        | Action a0 => simp [MenuAction.isSeparator] at hsepa
        | SubMenu sub => simp [MenuAction.isSeparator] at hsepa
      · rw [List.getElem?_eq_none (by omega)]

/-- Witness for C7: the single-separator menu, by Up and by Down, at a
sample fuel. -/
theorem all_separator_nav_diverges_witness :
    nextAux sepOnlyMenu 9 0 = none ∧ prevAux sepOnlyMenu 9 0 = none :=
  ⟨(all_separator_nav_diverges sepOnlyMenu (by simp [sepOnlyMenu, Menu.children])
      (by decide)).1 9 0,
   (all_separator_nav_diverges sepOnlyMenu (by simp [sepOnlyMenu, Menu.children])
      (by decide)).2 9 0⟩

/-- C10: for every Menu with an empty children list, `get_menu_width` faults,
and therefore `render` and any `take_over` iteration fault as well (rather
than drawing an empty box or returning a dismissal). -/
theorem empty_menu_faults (m : Menu) (hemp : m.children = []) :
    m.get_menu_width = none ∧
    (∀ origin sel, m.render origin sel = none) ∧
    (∀ fuel x sel input, takeOverLoop (fuel + 1) m x sel input = TOResult.fault) := by
  have hwid : m.get_menu_width = none := by
    unfold Menu.get_menu_width
    rw [if_pos (by simp [hemp])]
  refine ⟨hwid, ?_, ?_⟩
  · intro origin sel
    unfold Menu.render
    rw [hwid]
  · intro fuel x sel input
    unfold takeOverLoop
    rw [hwid]

/-- Menu with no children. -/
def emptyMenu : Menu := Menu.mk []

/-- Witness for C10 on the concrete empty menu. -/
theorem empty_menu_faults_witness :
    emptyMenu.get_menu_width = none ∧
    emptyMenu.render (0, 2) 0 = none ∧
    takeOverLoop 3 emptyMenu 0 0 [Key.Other] = TOResult.fault :=
  ⟨(empty_menu_faults emptyMenu rfl).1,
   (empty_menu_faults emptyMenu rfl).2.1 (0, 2) 0,
   (empty_menu_faults emptyMenu rfl).2.2 2 0 0 [Key.Other]⟩

end Qedit
